import Mathlib

/-!
Verification of the AutomaticClozeCards Anki add-on (src/change_logic.py and
src/config_dialog.py) via a shallow embedding of its data model and operations.

The host (Anki) objects are modelled explicitly: a note carries an id, guid,
model id (`mid`), a list of field values (which at the Python level may be
non-strings), tags, a modification stamp and an update sequence number; the
collection maps model ids to note-type dictionaries, of which only the id and
the field count are relevant here.  The add-on's module-level configuration
state (`source_model_ids`, `target_model_id`) together with the collection and
the current clock form the environment `Env`.
-/

namespace AutoCloze

/-! ### Cloze regex matcher

`CLOZE_RE = r"\{\{c\d+::.*?\}\}"`, searched with `re.DOTALL`.  The matcher is
translated to an executable search over the character list: a match starts at
some position with `{{c`, followed by a maximal nonempty run of digits,
followed by `::`, and `}}` occurs somewhere at or after that point (the lazy
`.*?` together with DOTALL places no constraint on the characters between). -/

/-- `listStartsWith p l` holds when `p` is an initial segment of `l`. -/
def listStartsWith : List Char → List Char → Bool
  | [], _ => true
  | _ :: _, [] => false
  | p :: ps, c :: cs => p == c && listStartsWith ps cs

/-- `hasSub p l` holds when `p` occurs contiguously inside `l`. -/
def hasSub (p : List Char) : List Char → Bool
  | [] => p.isEmpty
  | c :: cs => listStartsWith p (c :: cs) || hasSub p cs

/-- Does a match of the cloze regex begin at the head of the list?  The `\d+`
run is maximal (no digit can also start the following `::`, so greediness does
not affect existence of a match). -/
def clozeAt : List Char → Bool
  | '{' :: '{' :: 'c' :: rest =>
    !(rest.takeWhile (fun c => c.isDigit)).isEmpty
      && listStartsWith [':', ':'] (rest.dropWhile (fun c => c.isDigit))
      && hasSub ['}', '}'] ((rest.dropWhile (fun c => c.isDigit)).drop 2)
  | _ => false

/-- `re.search(CLOZE_RE, s, re.DOTALL)` succeeds iff a match begins at some
position. -/
def clozeSearch : List Char → Bool
  | [] => false
  | c :: cs => clozeAt (c :: cs) || clozeSearch cs

/-! ### Data model -/

/-- A Python field value: a string, or some non-string object. -/
inductive PyField
  | str (s : String)
  | nonStr
  deriving DecidableEq, Repr

/-- The slice of an Anki note-type dictionary the add-on reads: its `id` and
`len(model['flds'])`. -/
structure Model where
  id : Nat
  fldsCount : Nat
  deriving DecidableEq, Repr

/-- The slice of `mw.col` the add-on reads: the registered note types and the
collection's update sequence number. -/
structure Col where
  models : List Model
  usn : Int
  deriving DecidableEq, Repr

/-- `mw.col.models.get(mid)` / `note.note_type()`: look a model up by id. -/
def Col.getModel (col : Col) (mid : Nat) : Option Model :=
  col.models.find? (fun m => m.id == mid)

/-- An Anki note, restricted to the attributes the add-on touches or that the
frame claims mention. -/
structure Note where
  id : Int
  guid : String
  mid : Nat
  fields : List PyField
  tags : List String
  mod : Int
  usn : Int
  deriving DecidableEq, Repr

/-- The add-on's module-level state plus the ambient host state. -/
structure Env where
  source_model_ids : List Nat
  target_model_id : Option Nat
  col : Col
  now : Int
  deriving DecidableEq, Repr

/-! ### contains_cloze -/

/-- `contains_cloze(note)` from change_logic.py: `False` for `None` or an
empty field list, otherwise `True` iff some field is a string matched by the
cloze regex.  Non-string fields fail the `isinstance` test and are skipped. -/
def contains_cloze : Option Note → Bool
  | none => false
  | some note =>
    if note.fields.isEmpty then false
    else note.fields.any (fun f =>
      match f with
      | PyField.str s => clozeSearch s.data
      | PyField.nonStr => false)

/-! ### on_add_note_change_type -/

/-- The field remapping of the conversion: `new_fields = [""] * new_count`,
then `new_fields[i] = old_fields[i]` for `i < min(old_count, new_count)`. -/
def remapFields (old : List PyField) (newCount : Nat) : List PyField :=
  (List.range newCount).map (fun i => old.getD i (PyField.str ""))

/-- `on_add_note_change_type(note)` from change_logic.py as a pure function:
returns the resulting note together with whether `note.flush()` was called. -/
def on_add_note_change_type (env : Env) (note : Note) : Note × Bool :=
  if env.source_model_ids.isEmpty then (note, false)
  else
    match env.target_model_id with
    | none => (note, false)
    | some tmid =>
      match env.col.getModel note.mid with
      | none => (note, false)
      | some nt =>
        if env.source_model_ids.contains nt.id then
          if contains_cloze (some note) then
            match env.col.getModel tmid with
            | none => (note, false)
            | some tgt =>
              if note.mid == tmid then (note, false)
              else
                ({ note with
                    mid := tmid
                    fields := remapFields note.fields tgt.fldsCount
                    mod := env.now
                    usn := env.col.usn }, true)
          else (note, false)
        else (note, false)

/-! ### wrapped_fields_check -/

/-- The `anki.notes.NoteFieldsCheckResult` enum values (Anki 2.1.45+). -/
inductive NoteFieldsCheckResult
  | NORMAL
  | EMPTY
  | DUPLICATE
  | MISSING_CLOZE
  | NOTETYPE_NOT_CLOZE
  | FIELD_NOT_CLOZE
  | INVALID_INPUT
  deriving DecidableEq, Repr

/-- `wrapped_fields_check` from change_logic.py.  The original
`Note.fields_check` is host code, passed in as `orig`; the wrapper suppresses
a cloze-related error when the note's type exists, is a configured source
model, and the note contains cloze syntax. -/
def wrapped_fields_check (env : Env) (orig : Note → NoteFieldsCheckResult)
    (note : Note) : NoteFieldsCheckResult :=
  let original_result := orig note
  match env.col.getModel note.mid with
  | none => original_result
  | some nt =>
    let is_source_model := env.source_model_ids.contains nt.id
    let is_cloze_related_error :=
      original_result == NoteFieldsCheckResult.NOTETYPE_NOT_CLOZE
        || original_result == NoteFieldsCheckResult.FIELD_NOT_CLOZE
    let has_cloze_syntax := contains_cloze (some note)
    if is_source_model && is_cloze_related_error && has_cloze_syntax then
      NoteFieldsCheckResult.NORMAL
    else original_result

/-! ### show_cloze_button_if_source -/

/-- The slice of `aqt.editor.Editor` the hook reads: its (possibly absent)
current note. -/
structure Editor where
  note : Option Note
  deriving DecidableEq, Repr

/-- Python tuple comparison `a >= b` on version tuples (lexicographic, a
strict prefix being smaller). -/
def pyTupleGE : List Nat → List Nat → Bool
  | _, [] => true
  | [], _ :: _ => false
  | x :: xs, y :: ys =>
    if x > y then true
    else if x < y then false
    else pyTupleGE xs ys

/-- `show_cloze_button_if_source(editor)` from change_logic.py, returning
whether an `editor.web.eval` call (the editor-side action exposing the cloze
control) was performed. -/
def show_cloze_button_if_source (env : Env) (ver : List Nat) (editor : Editor) : Bool :=
  if env.source_model_ids.isEmpty then false
  else
    match editor.note with
    | none => false
    | some note =>
      match env.col.getModel note.mid with
      | none => false
      | some nt =>
        if env.source_model_ids.contains nt.id then
          if pyTupleGE ver [2, 1, 52] then true
          else if pyTupleGE ver [2, 1, 50] then true
          else if pyTupleGE ver [2, 1, 45] then true
          else false
        else false

/-! ### ConfigDialog.save_config -/

/-- The add-on configuration dictionary: keys `target_model_id` and
`source_model_ids`. -/
structure Config where
  target_model_id : Option Nat
  source_model_ids : List Nat
  deriving DecidableEq, Repr

/-- Python truthiness of a combo-box `itemData` value: `None` and `0` are
falsy. -/
def truthy : Option Nat → Bool
  | none => false
  | some n => n != 0

/-- The validation loop of `save_config` over the source rows: walks the rows
in order, rejecting a placeholder row, a row equal to the target, or a row
already seen; on success returns the selected ids in row order. -/
def collectSources (target : Nat) (used : List Nat) : List (Option Nat) → Option (List Nat)
  | [] => some []
  | row :: rest =>
    if truthy row then
      match row with
      | some sid =>
        if sid == target then none
        else if used.contains sid then none
        else
          match collectSources target (sid :: used) rest with
          | some tail => some (sid :: tail)
          | none => none
      | none => none
    else none

/-- `ConfigDialog.save_config` as a pure function of the stored config, the
target combo's current selection, and the source rows' current selections.
Returns the resulting stored config and whether the dialog accepted (i.e. the
config was written and the dialog closed). -/
def save_config (cfg : Config) (current_target : Option Nat)
    (rows : List (Option Nat)) : Config × Bool :=
  if !truthy current_target then (cfg, false)
  else
    match current_target with
    | none => (cfg, false)
    | some t =>
      match collectSources t [] rows with
      | none => (cfg, false)
      | some ids =>
        if ids.isEmpty then (cfg, false)
        else ({ target_model_id := some t, source_model_ids := ids }, true)

/-! ### The fields_check monkey-patch -/

/-- A value of the `Note.fields_check` class attribute: the host's original
method, or the add-on's wrapper closed over some inner implementation. -/
inductive FCImpl
  | original
  | wrapper (inner : FCImpl)
  deriving DecidableEq, Repr

/-- The class-level state the patch logic reads and writes: the current
`Note.fields_check` and the saved `Note._fields_check_original_auto_cloze`
attribute (absent = `none`). -/
structure PatchState where
  fields_check : FCImpl
  saved_original : Option FCImpl
  deriving DecidableEq, Repr

/-- The module-load patch logic of change_logic.py (lines 303-312): if the
saved-original attribute is absent, save the current method and install the
wrapper around it; if it is already present, skip. -/
def apply_fields_check_patch (s : PatchState) : PatchState :=
  if s.saved_original.isSome then s
  else
    { fields_check := FCImpl.wrapper s.fields_check
      saved_original := some s.fields_check }

/-! ### Matcher correctness lemmas -/

theorem listStartsWith_iff (p l : List Char) :
    listStartsWith p l = true ↔ ∃ r, l = p ++ r := by
  induction p generalizing l with
  | nil => simp [listStartsWith]
  | cons x xs ih =>
    cases l with
    | nil => simp [listStartsWith]
    | cons c cs =>
      simp only [listStartsWith, Bool.and_eq_true, beq_iff_eq, ih]
      constructor
      · rintro ⟨hx, r, hr⟩
        exact ⟨r, by simp [hx, hr]⟩
      · rintro ⟨r, hr⟩
        injection hr with h1 h2
        exact ⟨h1.symm, r, h2⟩

theorem hasSub_iff (p l : List Char) :
    hasSub p l = true ↔ ∃ a b, l = a ++ p ++ b := by
  induction l with
  | nil =>
    simp only [hasSub, List.isEmpty_iff]
    constructor
    · intro h
      exact ⟨[], [], by simp [h]⟩
    · rintro ⟨a, b, hab⟩
      rcases List.append_eq_nil.mp hab.symm with ⟨h1, h2⟩
      exact (List.append_eq_nil.mp h1).2
  | cons c cs ih =>
    simp only [hasSub, Bool.or_eq_true, listStartsWith_iff, ih]
    constructor
    · rintro (⟨r, hr⟩ | ⟨a, b, hab⟩)
      · exact ⟨[], r, by simp [hr]⟩
      · exact ⟨c :: a, b, by simp [hab]⟩
    · rintro ⟨a, b, hab⟩
      cases a with
      | nil => exact Or.inl ⟨b, by simpa using hab⟩
      | cons a0 as0 =>
        injection hab with h1 h2
        exact Or.inr ⟨as0, b, by simp [h2]⟩

theorem takeWhile_all_append (p : Char → Bool) (d : List Char) (x : Char)
    (r : List Char) (hd : ∀ c ∈ d, p c = true) (hx : p x = false) :
    (d ++ x :: r).takeWhile p = d := by
  induction d with
  | nil => simp [List.takeWhile_cons, hx]
  | cons c cs ih =>
    have hc : p c = true := hd c (by simp)
    simp [List.takeWhile_cons, hc, ih (fun c hm => hd c (by simp [hm]))]

theorem dropWhile_all_append (p : Char → Bool) (d : List Char) (x : Char)
    (r : List Char) (hd : ∀ c ∈ d, p c = true) (hx : p x = false) :
    (d ++ x :: r).dropWhile p = x :: r := by
  induction d with
  | nil => simp [List.dropWhile_cons, hx]
  | cons c cs ih =>
    have hc : p c = true := hd c (by simp)
    simp [List.dropWhile_cons, hc, ih (fun c hm => hd c (by simp [hm]))]

theorem clozeAt_iff (l : List Char) :
    clozeAt l = true ↔ ∃ d m post,
      l = '{' :: '{' :: 'c' :: (d ++ ':' :: ':' :: (m ++ '}' :: '}' :: post)) ∧
      d ≠ [] ∧ ∀ c ∈ d, c.isDigit = true := by
  constructor
  · intro h
    unfold clozeAt at h
    split at h
    next rest =>
      simp only [Bool.and_eq_true, Bool.not_eq_true', List.isEmpty_eq_false,
        listStartsWith_iff, hasSub_iff] at h
      obtain ⟨⟨h1, r, hr⟩, a, b, hab⟩ := h
      refine ⟨rest.takeWhile (fun c => c.isDigit), a, b, ?_, h1,
        fun c hc => List.mem_takeWhile_imp hc⟩
      have hsplit : rest.takeWhile (fun c => c.isDigit)
          ++ rest.dropWhile (fun c => c.isDigit) = rest :=
        List.takeWhile_append_dropWhile _ _
      rw [hr] at hab
      simp only [List.cons_append, List.nil_append, List.drop_succ_cons,
        List.drop_zero] at hab
      have hrest : rest = rest.takeWhile (fun c => c.isDigit)
          ++ ':' :: ':' :: (a ++ '}' :: '}' :: b) := by
        conv_lhs => rw [← hsplit]
        rw [hr, hab]
        simp
      conv_lhs => rw [hrest]
    next => exact absurd h (by simp)
  · rintro ⟨d, m, post, rfl, hd, hdig⟩
    have hcolon : (':' : Char).isDigit = false := by decide
    have htake : ((d ++ ':' :: ':' :: (m ++ '}' :: '}' :: post)).takeWhile
        (fun c => c.isDigit)) = d :=
      takeWhile_all_append _ d ':' _ hdig hcolon
    have hdrop : ((d ++ ':' :: ':' :: (m ++ '}' :: '}' :: post)).dropWhile
        (fun c => c.isDigit)) = ':' :: ':' :: (m ++ '}' :: '}' :: post) :=
      dropWhile_all_append _ d ':' _ hdig hcolon
    simp only [clozeAt, htake, hdrop, Bool.and_eq_true, Bool.not_eq_true',
      List.isEmpty_eq_false, List.drop_succ_cons, List.drop_zero]
    refine ⟨⟨hd, ?_⟩, ?_⟩
    · exact (listStartsWith_iff _ _).mpr ⟨m ++ '}' :: '}' :: post, by simp⟩
    · exact (hasSub_iff _ _).mpr ⟨m, post, by simp⟩

theorem clozeSearch_iff (l : List Char) :
    clozeSearch l = true ↔ ∃ pre d m post,
      l = pre ++ '{' :: '{' :: 'c' :: (d ++ ':' :: ':' :: (m ++ '}' :: '}' :: post)) ∧
      d ≠ [] ∧ ∀ c ∈ d, c.isDigit = true := by
  induction l with
  | nil =>
    constructor
    · intro h
      simp [clozeSearch] at h
    · rintro ⟨pre, d, m, post, hl, -, -⟩
      rcases List.append_eq_nil.mp hl.symm with ⟨-, h2⟩
      exact absurd h2 (List.cons_ne_nil _ _)
  | cons c cs ih =>
    simp only [clozeSearch, Bool.or_eq_true]
    constructor
    · rintro (h | h)
      · obtain ⟨d, m, post, heq, hd, hdig⟩ := (clozeAt_iff _).mp h
        exact ⟨[], d, m, post, by simpa using heq, hd, hdig⟩
      · obtain ⟨pre, d, m, post, heq, hd, hdig⟩ := ih.mp h
        exact ⟨c :: pre, d, m, post, by simp [heq], hd, hdig⟩
    · rintro ⟨pre, d, m, post, hl, hd, hdig⟩
      cases pre with
      | nil =>
        exact Or.inl ((clozeAt_iff _).mpr ⟨d, m, post, by simpa using hl, hd, hdig⟩)
      | cons p ps =>
        injection hl with h1 h2
        exact Or.inr (ih.mpr ⟨ps, d, m, post, h2, hd, hdig⟩)

/-! ### Basic facts about the embedded operations -/

theorem contains_cloze_some_eq_any (note : Note) :
    contains_cloze (some note) = note.fields.any (fun f =>
      match f with
      | PyField.str s => clozeSearch s.data
      | PyField.nonStr => false) := by
  by_cases h : note.fields.isEmpty
  · rw [List.isEmpty_iff] at h
    simp [contains_cloze, h]
  · simp [contains_cloze, h]

theorem getModel_id {col : Col} {mid : Nat} {m : Model}
    (h : col.getModel mid = some m) : m.id = mid := by
  have h' : col.models.find? (fun m' => m'.id == mid) = some m := h
  have := List.find?_some h'
  simpa using this

theorem remapFields_length (old : List PyField) (n : Nat) :
    (remapFields old n).length = n := by
  simp [remapFields]

theorem remapFields_getD (old : List PyField) (n i : Nat) (hi : i < n)
    (dflt : PyField) :
    (remapFields old n).getD i dflt = old.getD i (PyField.str "") := by
  simp [remapFields, List.getD_eq_getElem?_getD, hi]

/-- Case analysis of `on_add_note_change_type`: either the note is converted
(with all the guards recorded), or the call is a no-op without a flush. -/
theorem on_add_spec (env : Env) (note : Note) :
    (∃ tmid tgt nt,
        env.target_model_id = some tmid ∧
        env.col.getModel note.mid = some nt ∧
        env.source_model_ids.contains nt.id = true ∧
        contains_cloze (some note) = true ∧
        env.col.getModel tmid = some tgt ∧
        note.mid ≠ tmid ∧
        on_add_note_change_type env note =
          ({ note with
              mid := tmid
              fields := remapFields note.fields tgt.fldsCount
              mod := env.now
              usn := env.col.usn }, true)) ∨
    on_add_note_change_type env note = (note, false) := by
  unfold on_add_note_change_type
  split
  · exact Or.inr rfl
  · split
    next => exact Or.inr rfl
    next tmid htmid =>
      split
      next => exact Or.inr rfl
      next nt hnt =>
        split
        next hsrc =>
          split
          next hcz =>
            split
            next => exact Or.inr rfl
            next tgt htgt =>
              split
              next => exact Or.inr rfl
              next hne =>
                exact Or.inl ⟨tmid, tgt, nt, htmid, hnt, hsrc, hcz, htgt,
                  by simpa using hne, rfl⟩
          next => exact Or.inr rfl
        next => exact Or.inr rfl

/-- When the note's current model id is the configured target, the hook is a
no-op (the `current_mid == target_model_id` guard, or an earlier guard,
fires). -/
theorem on_add_fixed_of_target_eq (env : Env) (note : Note)
    (h : env.target_model_id = some note.mid) :
    on_add_note_change_type env note = (note, false) := by
  rcases on_add_spec env note with ⟨tmid, tgt, nt, htmid, -, -, -, -, hne, -⟩ | hid
  · rw [h] at htmid
    injection htmid with h1
    exact absurd h1 hne
  · exact hid

theorem collectSources_sound (t : Nat) :
    ∀ (rows : List (Option Nat)) (used ids : List Nat),
      collectSources t used rows = some ids →
      rows = ids.map some ∧ ids.Nodup ∧
      ∀ sid ∈ ids, sid ≠ 0 ∧ sid ≠ t ∧ sid ∉ used := by
  intro rows
  induction rows with
  | nil =>
    intro used ids h
    simp only [collectSources, Option.some.injEq] at h
    subst h
    simp
  | cons row rest ih =>
    intro used ids h
    unfold collectSources at h
    split at h
    next htr =>
      split at h
      next sid =>
        split at h
        next => exact absurd h (by simp)
        next hne_t =>
          split at h
          next => exact absurd h (by simp)
          next hne_u =>
            split at h
            next tail htail =>
              injection h with h
              subst h
              obtain ⟨hrows, hnodup, hmem⟩ := ih (sid :: used) tail htail
              have hsid0 : sid ≠ 0 := by simpa [truthy] using htr
              have hsidt : sid ≠ t := by simpa using hne_t
              have hsidu : sid ∉ used := by simpa [List.elem_iff] using hne_u
              refine ⟨by simp [hrows], ?_, ?_⟩
              · refine List.nodup_cons.mpr ⟨?_, hnodup⟩
                intro hmem'
                exact (hmem sid hmem').2.2 (by simp)
              · intro x hx
                rcases List.mem_cons.mp hx with rfl | hx'
                · exact ⟨hsid0, hsidt, hsidu⟩
                · obtain ⟨h0, ht, hu⟩ := hmem x hx'
                  exact ⟨h0, ht, fun hxu => hu (by simp [hxu])⟩
            next => exact absurd h (by simp)
      next => exact absurd h (by simp)
    next => exact absurd h (by simp)

theorem collectSources_complete (t : Nat) :
    ∀ (ids used : List Nat),
      ids.Nodup → (∀ sid ∈ ids, sid ≠ 0 ∧ sid ≠ t ∧ sid ∉ used) →
      collectSources t used (ids.map some) = some ids := by
  intro ids
  induction ids with
  | nil => intro used _ _; rfl
  | cons sid rest ih =>
    intro used hnodup hmem
    obtain ⟨h0, ht, hu⟩ := hmem sid (by simp)
    have htr : truthy (some sid) = true := by simp [truthy, h0]
    have hbt : (sid == t) = false := by simp [ht]
    have hcu : used.contains sid = false := by
      cases hc : used.contains sid
      · rfl
      · exact (hu (List.elem_iff.mp hc)).elim
    have hrec : collectSources t (sid :: used) (rest.map some) = some rest := by
      refine ih (sid :: used) (List.nodup_cons.mp hnodup).2 ?_
      intro x hx
      obtain ⟨hx0, hxt, hxu⟩ := hmem x (by simp [hx])
      have hxs : x ≠ sid := by
        intro hxs
        exact (List.nodup_cons.mp hnodup).1 (hxs ▸ hx)
      refine ⟨hx0, hxt, ?_⟩
      intro hmem'
      rcases List.mem_cons.mp hmem' with h' | h'
      · exact hxs h'
      · exact hxu h'
    simp [collectSources, htr, hbt, hcu, hrec, hu]

/-- Auxiliary: filtering a list by `p` does not change `any g` when `g` is
false wherever `p` is. -/
theorem any_filter_eq (g p : PyField → Bool) (h : ∀ f, p f = false → g f = false) :
    ∀ l : List PyField, (l.filter p).any g = l.any g := by
  intro l
  induction l with
  | nil => rfl
  | cons f fs ih =>
    cases hp : p f
    · simp [List.filter_cons, hp, ih, h f hp]
    · simp [List.filter_cons, hp, ih]

/-- The cloze-occurrence property in the words of the claim: an occurrence of
`{{c` followed by one or more digits, `::`, any (possibly empty) text, then
`}}` (the text may contain any characters, newlines included, per DOTALL). -/
def SpecClozeOccurrence (s : String) : Prop :=
  ∃ pre d m post : List Char,
    s.data = pre ++ '{' :: '{' :: 'c' :: (d ++ ':' :: ':' :: (m ++ '}' :: '}' :: post)) ∧
    d ≠ [] ∧ ∀ c ∈ d, c.isDigit = true

/-! ### Claim theorems -/

/-- C4: `contains_cloze(note)` returns `True` iff at least one field of the
note is a string containing a match of `\{\{c\d+::.*?\}\}` under DOTALL,
i.e. an occurrence of `{{c`, one or more digits, `::`, any possibly-empty
text, then `}}`. -/
theorem contains_cloze_iff_regex_match (note : Note) :
    contains_cloze (some note) = true ↔
      ∃ f ∈ note.fields, ∃ s, f = PyField.str s ∧ SpecClozeOccurrence s := by
  rw [contains_cloze_some_eq_any, List.any_eq_true]
  constructor
  · rintro ⟨f, hf, hmatch⟩
    cases f with
    | str s => exact ⟨PyField.str s, hf, s, rfl, (clozeSearch_iff _).mp hmatch⟩
    | nonStr => simp at hmatch
  · rintro ⟨f, hf, s, rfl, hspec⟩
    exact ⟨PyField.str s, hf, (clozeSearch_iff _).mpr hspec⟩

/-- C9: `contains_cloze` is total at its interface: `False` for a `None`
note and for an empty field list, and non-string fields are skipped (the
result is unchanged when they are filtered out). -/
theorem contains_cloze_total_behavior :
    contains_cloze none = false ∧
    (∀ note : Note, note.fields = [] → contains_cloze (some note) = false) ∧
    (∀ note : Note,
      contains_cloze (some note) =
        contains_cloze (some { note with
          fields := note.fields.filter (fun f =>
            match f with
            | PyField.str _ => true
            | PyField.nonStr => false) })) := by
  refine ⟨rfl, ?_, ?_⟩
  · intro note h
    simp [contains_cloze, h]
  · intro note
    rw [contains_cloze_some_eq_any, contains_cloze_some_eq_any]
    exact (any_filter_eq _ _ (fun f hf => by cases f <;> simp_all) note.fields).symm

/-- C6: the conversion is in place: `on_add_note_change_type` keeps the
note's identity — its `id`, `guid` and `tags` are unchanged (the only
attributes ever assigned are `mid`, `fields`, `mod` and `usn`). -/
theorem on_add_preserves_identity (env : Env) (note : Note) :
    (on_add_note_change_type env note).1.id = note.id ∧
    (on_add_note_change_type env note).1.guid = note.guid ∧
    (on_add_note_change_type env note).1.tags = note.tags := by
  rcases on_add_spec env note with ⟨tmid, tgt, nt, -, -, -, -, -, -, heq⟩ | heq <;>
    rw [heq] <;> exact ⟨rfl, rfl, rfl⟩

/-- C8: `on_add_note_change_type` is idempotent: a note already of the
target model id is returned unmodified (no flush), and applying the hook
twice yields the same note as applying it once. -/
theorem on_add_idempotent (env : Env) (note : Note) :
    (env.target_model_id = some note.mid →
        on_add_note_change_type env note = (note, false)) ∧
    (on_add_note_change_type env (on_add_note_change_type env note).1).1 =
      (on_add_note_change_type env note).1 := by
  refine ⟨on_add_fixed_of_target_eq env note, ?_⟩
  rcases on_add_spec env note with ⟨tmid, tgt, nt, htmid, -, -, -, -, -, heq⟩ | heq
  · rw [heq]
    dsimp only
    rw [on_add_fixed_of_target_eq env _ htmid]
  · rw [heq]
    dsimp only
    rw [heq]

/-- C3: when any conversion precondition fails — empty source list, unset
target, note's model id not a source, no cloze markup, or unresolvable
target model — the hook returns with the note entirely unchanged and no
flush is performed. -/
theorem on_add_noop_cases (env : Env) (note : Note)
    (h : env.source_model_ids = [] ∨ env.target_model_id = none ∨
      note.mid ∉ env.source_model_ids ∨ contains_cloze (some note) = false ∨
      ∃ tmid, env.target_model_id = some tmid ∧ env.col.getModel tmid = none) :
    on_add_note_change_type env note = (note, false) := by
  rcases on_add_spec env note with
    ⟨tmid, tgt, nt, htmid, hnt, hsrc, hcz, htgt, hne, heq⟩ | heq
  · exfalso
    rcases h with h | h | h | h | ⟨tmid', ht', hg'⟩
    · rw [h] at hsrc
      simp at hsrc
    · rw [h] at htmid
      exact Option.noConfusion htmid
    · refine h ?_
      rw [← getModel_id hnt]
      exact List.elem_iff.mp hsrc
    · rw [h] at hcz
      exact Bool.noConfusion hcz
    · rw [ht'] at htmid
      injection htmid with he
      rw [he] at hg'
      rw [hg'] at htgt
      exact Option.noConfusion htgt
  · exact heq

/-- C1: for a source-typed note containing cloze markup, with an existing
target model different from the note's current model, the hook sets the
note's model id to the target, and the new field list has the target's
field count, copies old field `i` for `i < min(old, new)`, and fills the
remaining positions with the empty string. -/
theorem on_add_converts (env : Env) (note : Note) (tmid : Nat) (nt tgt : Model)
    (htarget : env.target_model_id = some tmid)
    (hnt : env.col.getModel note.mid = some nt)
    (hsrc : note.mid ∈ env.source_model_ids)
    (hcloze : contains_cloze (some note) = true)
    (htgt : env.col.getModel tmid = some tgt)
    (hne : note.mid ≠ tmid) :
    (on_add_note_change_type env note).2 = true ∧
    (on_add_note_change_type env note).1.mid = tmid ∧
    (on_add_note_change_type env note).1.fields.length = tgt.fldsCount ∧
    (∀ i, i < min note.fields.length tgt.fldsCount →
      (on_add_note_change_type env note).1.fields.getD i PyField.nonStr =
        note.fields.getD i PyField.nonStr) ∧
    (∀ i, min note.fields.length tgt.fldsCount ≤ i → i < tgt.fldsCount →
      (on_add_note_change_type env note).1.fields.getD i PyField.nonStr =
        PyField.str "") := by
  have h0 : env.source_model_ids.isEmpty = false :=
    List.isEmpty_eq_false.mpr (List.ne_nil_of_mem hsrc)
  have hmem : nt.id ∈ env.source_model_ids := by
    rw [getModel_id hnt]
    exact hsrc
  have hcont : env.source_model_ids.contains nt.id = true := List.elem_iff.mpr hmem
  have hb : (note.mid == tmid) = false := by simp [hne]
  have heq : on_add_note_change_type env note =
      ({ note with
          mid := tmid
          fields := remapFields note.fields tgt.fldsCount
          mod := env.now
          usn := env.col.usn }, true) := by
    simp [on_add_note_change_type, h0, htarget, hnt, hcont, hmem, hcloze, htgt, hb]
  rw [heq]
  dsimp only
  refine ⟨rfl, rfl, remapFields_length _ _, ?_, ?_⟩
  · intro i hi
    have hin : i < tgt.fldsCount := lt_of_lt_of_le hi (min_le_right _ _)
    have hio : i < note.fields.length := lt_of_lt_of_le hi (min_le_left _ _)
    rw [remapFields_getD note.fields tgt.fldsCount i hin,
      List.getD_eq_getElem note.fields (PyField.str "") hio,
      List.getD_eq_getElem note.fields PyField.nonStr hio]
  · intro i h1 h2
    have hio : note.fields.length ≤ i := by omega
    rw [remapFields_getD note.fields tgt.fldsCount i h2,
      List.getD_eq_getElem?_getD, List.getElem?_eq_none hio]
    rfl

/-- Closed form of `wrapped_fields_check`: the wrapper returns `NORMAL`
when the suppression condition holds and the original result otherwise. -/
theorem wfc_eq (env : Env) (orig : Note → NoteFieldsCheckResult) (note : Note) :
    wrapped_fields_check env orig note =
      if ((env.col.getModel note.mid).isSome ∧ note.mid ∈ env.source_model_ids ∧
          (orig note = NoteFieldsCheckResult.NOTETYPE_NOT_CLOZE ∨
            orig note = NoteFieldsCheckResult.FIELD_NOT_CLOZE) ∧
          contains_cloze (some note) = true)
      then NoteFieldsCheckResult.NORMAL else orig note := by
  cases hnt : env.col.getModel note.mid with
  | none =>
    rw [if_neg (by simp [hnt])]
    simp [wrapped_fields_check, hnt]
  | some nt =>
    have hid : nt.id = note.mid := getModel_id hnt
    cases hb : (env.source_model_ids.contains nt.id &&
        ((orig note == NoteFieldsCheckResult.NOTETYPE_NOT_CLOZE) ||
          (orig note == NoteFieldsCheckResult.FIELD_NOT_CLOZE)) &&
        contains_cloze (some note)) with
    | true =>
      have hw : wrapped_fields_check env orig note = NoteFieldsCheckResult.NORMAL := by
        simp only [wrapped_fields_check, hnt]
        rw [hb]
        simp
      simp only [Bool.and_eq_true, Bool.or_eq_true, beq_iff_eq] at hb
      obtain ⟨⟨hcont, herr⟩, hcz⟩ := hb
      rw [hw, if_pos ⟨by simp [hnt], by rw [← hid]; exact List.elem_iff.mp hcont,
        herr, hcz⟩]
    | false =>
      have hw : wrapped_fields_check env orig note = orig note := by
        simp only [wrapped_fields_check, hnt]
        rw [hb]
        simp
      rw [hw, if_neg ?_]
      rintro ⟨-, hmemb, herr, hcz⟩
      have hbt : (env.source_model_ids.contains nt.id &&
          ((orig note == NoteFieldsCheckResult.NOTETYPE_NOT_CLOZE) ||
            (orig note == NoteFieldsCheckResult.FIELD_NOT_CLOZE)) &&
          contains_cloze (some note)) = true := by
        have hcont : env.source_model_ids.contains nt.id = true :=
          List.elem_iff.mpr (hid ▸ hmemb)
        rcases herr with herr | herr <;> simp [hcont, herr, hcz, hid, hmemb]
      rw [hb] at hbt
      exact Bool.noConfusion hbt

/-- C2 (amended): the wrapper returns `NORMAL` exactly when the original
result is `NOTETYPE_NOT_CLOZE` or `FIELD_NOT_CLOZE`, the note's model id
resolves to an existing model, the id is in the configured
`source_model_ids`, and the note contains cloze syntax (together), or when
the original result is already `NORMAL`; in every other case the original
result is returned unchanged. -/
theorem wrapped_fields_check_suppression (env : Env)
    (orig : Note → NoteFieldsCheckResult) (note : Note) :
    (wrapped_fields_check env orig note = NoteFieldsCheckResult.NORMAL ↔
      (orig note = NoteFieldsCheckResult.NORMAL ∨
        ((env.col.getModel note.mid).isSome ∧ note.mid ∈ env.source_model_ids ∧
          (orig note = NoteFieldsCheckResult.NOTETYPE_NOT_CLOZE ∨
            orig note = NoteFieldsCheckResult.FIELD_NOT_CLOZE) ∧
          contains_cloze (some note) = true))) ∧
    (¬((env.col.getModel note.mid).isSome ∧ note.mid ∈ env.source_model_ids ∧
        (orig note = NoteFieldsCheckResult.NOTETYPE_NOT_CLOZE ∨
          orig note = NoteFieldsCheckResult.FIELD_NOT_CLOZE) ∧
        contains_cloze (some note) = true) →
      wrapped_fields_check env orig note = orig note) := by
  by_cases hc : ((env.col.getModel note.mid).isSome ∧
      note.mid ∈ env.source_model_ids ∧
      (orig note = NoteFieldsCheckResult.NOTETYPE_NOT_CLOZE ∨
        orig note = NoteFieldsCheckResult.FIELD_NOT_CLOZE) ∧
      contains_cloze (some note) = true)
  · rw [wfc_eq, if_pos hc]
    exact ⟨⟨fun _ => Or.inr hc, fun _ => rfl⟩, fun hn => absurd hc hn⟩
  · rw [wfc_eq, if_neg hc]
    refine ⟨⟨fun h => Or.inl h, ?_⟩, fun _ => rfl⟩
    rintro (h | h)
    · exact h
    · exact absurd h hc

/-- C2 counterexample: a note whose model id is a configured source id and
which contains cloze syntax, with original result `NOTETYPE_NOT_CLOZE`, is
NOT given result `NORMAL` when the model id does not resolve in the
collection — the claim's stated conditions hold yet the original error is
returned unchanged. -/
theorem wrapped_fields_check_claim_counterexample :
    (5 : Nat) ∈ [5] ∧
    contains_cloze (some ⟨1, "g", 5, [PyField.str "\x7b\x7bc1::x\x7d\x7d"], [], 0, 0⟩)
      = true ∧
    wrapped_fields_check ⟨[5], none, ⟨[], 0⟩, 0⟩
        (fun _ => NoteFieldsCheckResult.NOTETYPE_NOT_CLOZE)
        ⟨1, "g", 5, [PyField.str "\x7b\x7bc1::x\x7d\x7d"], [], 0, 0⟩ =
      NoteFieldsCheckResult.NOTETYPE_NOT_CLOZE ∧
    wrapped_fields_check ⟨[5], none, ⟨[], 0⟩, 0⟩
        (fun _ => NoteFieldsCheckResult.NOTETYPE_NOT_CLOZE)
        ⟨1, "g", 5, [PyField.str "\x7b\x7bc1::x\x7d\x7d"], [], 0, 0⟩ ≠
      NoteFieldsCheckResult.NORMAL := by
  refine ⟨by decide, rfl, rfl, by decide⟩

/-- C5: `save_config` accepts (writes the config and closes the dialog)
exactly when a truthy target is selected and the rows are a nonempty list
of distinct, non-placeholder source ids none equal to the target; on any
failed check the stored config is unchanged; and every written config has a
nonempty, duplicate-free source list none of whose ids is the target. -/
theorem save_config_validates (cfg : Config) (tgt : Option Nat)
    (rows : List (Option Nat)) :
    ((save_config cfg tgt rows).2 = false → (save_config cfg tgt rows).1 = cfg) ∧
    ((save_config cfg tgt rows).2 = true →
      ∃ t ids, tgt = some t ∧
        (save_config cfg tgt rows).1 = ⟨some t, ids⟩ ∧
        ids ≠ [] ∧ ids.Nodup ∧ ∀ sid ∈ ids, sid ≠ t) ∧
    ((save_config cfg tgt rows).2 = true ↔
      ∃ t ids, tgt = some t ∧ t ≠ 0 ∧ rows = ids.map some ∧ ids ≠ [] ∧
        ids.Nodup ∧ ∀ sid ∈ ids, sid ≠ 0 ∧ sid ≠ t) := by
  cases htr : truthy tgt with
  | false =>
    have hsv : save_config cfg tgt rows = (cfg, false) := by
      simp [save_config, htr]
    rw [hsv]
    refine ⟨fun _ => rfl, fun h => Bool.noConfusion h, ?_⟩
    constructor
    · intro h
      exact Bool.noConfusion h
    · rintro ⟨t, ids, rfl, h0, -, -, -, -⟩
      simp [truthy, h0] at htr
  | true =>
    cases tgt with
    | none => simp [truthy] at htr
    | some t =>
      have ht0 : t ≠ 0 := by simpa [truthy] using htr
      cases hcol : collectSources t [] rows with
      | none =>
        have hsv : save_config cfg (some t) rows = (cfg, false) := by
          simp [save_config, htr, hcol]
        rw [hsv]
        refine ⟨fun _ => rfl, fun h => Bool.noConfusion h, ?_⟩
        constructor
        · intro h
          exact Bool.noConfusion h
        · rintro ⟨t', ids, heq, -, hrows, -, hnodup, hmem⟩
          injection heq with heq
          subst heq
          have := collectSources_complete t ids [] hnodup
            (fun sid hs => ⟨(hmem sid hs).1, (hmem sid hs).2, by simp⟩)
          rw [hrows, this] at hcol
          exact Option.noConfusion hcol
      | some ids =>
        obtain ⟨hrows, hnodup, hmem⟩ := collectSources_sound t rows [] ids hcol
        cases ids with
        | nil =>
          have hsv : save_config cfg (some t) rows = (cfg, false) := by
            simp [save_config, htr, hcol]
          rw [hsv]
          refine ⟨fun _ => rfl, fun h => Bool.noConfusion h, ?_⟩
          constructor
          · intro h
            exact Bool.noConfusion h
          · rintro ⟨t', ids', heq, -, hrows', hne', -, -⟩
            injection heq with heq
            subst heq
            rw [hrows] at hrows'
            simp only [List.map_nil] at hrows'
            exact (hne' (List.map_eq_nil_iff.mp hrows'.symm)).elim
        | cons i0 irest =>
          have hsv : save_config cfg (some t) rows = (⟨some t, i0 :: irest⟩, true) := by
            simp [save_config, htr, hcol]
          rw [hsv]
          refine ⟨fun h => Bool.noConfusion h, ?_, ?_⟩
          · intro _
            exact ⟨t, i0 :: irest, rfl, rfl, List.cons_ne_nil _ _, hnodup,
              fun sid hs => (hmem sid hs).2.1⟩
          · constructor
            · intro _
              exact ⟨t, i0 :: irest, rfl, ht0, hrows, List.cons_ne_nil _ _, hnodup,
                fun sid hs => ⟨(hmem sid hs).1, (hmem sid hs).2.1⟩⟩
            · intro _
              rfl

/-- C7: `show_cloze_button_if_source` performs the editor-side action only
when the editor has a note whose model id is among the configured source
model ids; with an empty source list, a missing note, or a non-source note
type it performs no action. -/
theorem show_cloze_button_gating (env : Env) (ver : List Nat) (editor : Editor) :
    (show_cloze_button_if_source env ver editor = true →
      env.source_model_ids ≠ [] ∧
      ∃ note, editor.note = some note ∧ note.mid ∈ env.source_model_ids) ∧
    ((env.source_model_ids = [] ∨ editor.note = none ∨
        (∀ note, editor.note = some note → note.mid ∉ env.source_model_ids)) →
      show_cloze_button_if_source env ver editor = false) := by
  constructor
  · intro h
    by_cases hE : env.source_model_ids.isEmpty = true
    · simp [show_cloze_button_if_source, hE] at h
    · cases hn : editor.note with
      | none => simp [show_cloze_button_if_source, hE, hn] at h
      | some note =>
        cases hm : env.col.getModel note.mid with
        | none => simp [show_cloze_button_if_source, hE, hn, hm] at h
        | some nt =>
          by_cases hmem : nt.id ∈ env.source_model_ids
          · refine ⟨fun hnil => hE (by simp [hnil]), note, rfl, ?_⟩
            rw [← getModel_id hm]
            exact hmem
          · simp [show_cloze_button_if_source, hE, hn, hm, hmem] at h
  · intro h
    rcases h with h | h | h
    · simp [show_cloze_button_if_source, h]
    · simp [show_cloze_button_if_source, h]
    · by_cases hE : env.source_model_ids.isEmpty = true
      · simp [show_cloze_button_if_source, hE]
      · cases hn : editor.note with
        | none => simp [show_cloze_button_if_source, hE, hn]
        | some note =>
          cases hm : env.col.getModel note.mid with
          | none => simp [show_cloze_button_if_source, hE, hn, hm]
          | some nt =>
            have hnotmem : nt.id ∉ env.source_model_ids := by
              rw [getModel_id hm]
              exact h note hn
            simp [show_cloze_button_if_source, hE, hn, hm, hnotmem]

/-- C10: the `Note.fields_check` monkey-patch is applied at most once:
starting from a state whose saved-original attribute is absent, one run
saves the original and installs the wrapper, and any further runs of the
patch logic are skipped, so iterating the patch logic any positive number
of times equals running it once (no wrapper is ever stacked on the
wrapped method). -/
theorem fields_check_patch_once (s : PatchState) (n : Nat) :
    (s.saved_original = none →
      apply_fields_check_patch s =
        ⟨FCImpl.wrapper s.fields_check, some s.fields_check⟩) ∧
    apply_fields_check_patch^[n + 1] s = apply_fields_check_patch s := by
  have hidem : apply_fields_check_patch (apply_fields_check_patch s) =
      apply_fields_check_patch s := by
    cases h : s.saved_original with
    | some v => simp [apply_fields_check_patch, h]
    | none => simp [apply_fields_check_patch, h]
  constructor
  · intro h
    simp [apply_fields_check_patch, h]
  · induction n with
    | zero => rfl
    | succ k ih =>
      rw [Function.iterate_succ_apply', ih, hidem]

/-! ### Witness instances -/

/-- Witness for C1 at a concrete source note containing a cloze. -/
theorem on_add_converts_witness :
    (on_add_note_change_type ⟨[5], some 9, ⟨[⟨5, 2⟩, ⟨9, 3⟩], 7⟩, 1000⟩
        ⟨1, "g", 5, [PyField.str "\x7b\x7bc1::x\x7d\x7d", PyField.str "b"],
          [], 0, 0⟩).2 = true ∧
    (on_add_note_change_type ⟨[5], some 9, ⟨[⟨5, 2⟩, ⟨9, 3⟩], 7⟩, 1000⟩
        ⟨1, "g", 5, [PyField.str "\x7b\x7bc1::x\x7d\x7d", PyField.str "b"],
          [], 0, 0⟩).1.mid = 9 := by
  have h := on_add_converts ⟨[5], some 9, ⟨[⟨5, 2⟩, ⟨9, 3⟩], 7⟩, 1000⟩
    ⟨1, "g", 5, [PyField.str "\x7b\x7bc1::x\x7d\x7d", PyField.str "b"], [], 0, 0⟩
    9 ⟨5, 2⟩ ⟨9, 3⟩ rfl rfl (by decide) rfl rfl (by decide)
  exact ⟨h.1, h.2.1⟩

/-- Witness for C2 (amended): the suppression fires on a source-typed cloze
note whose model exists. -/
theorem wrapped_fields_check_suppression_witness :
    wrapped_fields_check ⟨[5], some 9, ⟨[⟨5, 2⟩], 0⟩, 0⟩
        (fun _ => NoteFieldsCheckResult.NOTETYPE_NOT_CLOZE)
        ⟨1, "g", 5, [PyField.str "\x7b\x7bc1::x\x7d\x7d"], [], 0, 0⟩ =
      NoteFieldsCheckResult.NORMAL :=
  (wrapped_fields_check_suppression _ _ _).1.mpr
    (Or.inr ⟨rfl, by decide, Or.inl rfl, rfl⟩)

/-- Witness for C3 with an empty configured source list. -/
theorem on_add_noop_cases_witness :
    on_add_note_change_type ⟨[], some 9, ⟨[], 0⟩, 0⟩ ⟨1, "g", 5, [], [], 0, 0⟩ =
      (⟨1, "g", 5, [], [], 0, 0⟩, false) :=
  on_add_noop_cases _ _ (Or.inl rfl)

/-- Witness for C4 on a field holding one cloze deletion. -/
theorem contains_cloze_iff_regex_match_witness :
    contains_cloze
      (some ⟨1, "g", 5, [PyField.str "\x7b\x7bc1::x\x7d\x7d"], [], 0, 0⟩) = true :=
  (contains_cloze_iff_regex_match _).mpr
    ⟨PyField.str "\x7b\x7bc1::x\x7d\x7d", by simp, "\x7b\x7bc1::x\x7d\x7d", rfl,
      [], ['1'], ['x'], [], by decide, by decide, by decide⟩

/-- Witness for C5 on a valid one-row configuration. -/
theorem save_config_validates_witness :
    (save_config ⟨none, []⟩ (some 7) [some 3]).2 = true :=
  (save_config_validates _ _ _).2.2.mpr
    ⟨7, [3], rfl, by decide, rfl, by decide, by decide, by decide⟩

/-- Witness for C6 on a concrete note. -/
theorem on_add_preserves_identity_witness :
    (on_add_note_change_type ⟨[], none, ⟨[], 0⟩, 0⟩
        ⟨1, "g", 5, [], [], 0, 0⟩).1.id = 1 :=
  (on_add_preserves_identity _ _).1

/-- Witness for C7 with an empty configured source list. -/
theorem show_cloze_button_gating_witness :
    show_cloze_button_if_source ⟨[], none, ⟨[], 0⟩, 0⟩ [2, 1, 60] ⟨none⟩ = false :=
  (show_cloze_button_gating _ _ _).2 (Or.inl rfl)

/-- Witness for C8 on a note already of the target model. -/
theorem on_add_idempotent_witness :
    on_add_note_change_type ⟨[5], some 5, ⟨[⟨5, 2⟩], 0⟩, 0⟩
        ⟨1, "g", 5, [], [], 0, 0⟩ = (⟨1, "g", 5, [], [], 0, 0⟩, false) :=
  (on_add_idempotent _ _).1 rfl

/-- Witness for C9 on `None` and on an empty field list. -/
theorem contains_cloze_total_behavior_witness :
    contains_cloze none = false ∧
    contains_cloze (some ⟨1, "g", 5, [], [], 0, 0⟩) = false :=
  ⟨contains_cloze_total_behavior.1, contains_cloze_total_behavior.2.1 _ rfl⟩

/-- Witness for C10: two runs of the patch logic equal one. -/
theorem fields_check_patch_once_witness :
    apply_fields_check_patch^[2] ⟨FCImpl.original, none⟩ =
      apply_fields_check_patch ⟨FCImpl.original, none⟩ :=
  (fields_check_patch_once ⟨FCImpl.original, none⟩ 1).2

end AutoCloze
